import Mathlib

/-!
Verification of the distributed n-body simulation
(`n_body_problem_distributed.py`) against its specification.

The embedding models the numpy floating-point arithmetic as exact real
arithmetic.  Arrays are modelled as functions `ℕ → ℝ × ℝ` (positions,
velocities, accelerations) and `ℕ → ℝ` (masses) together with an explicit
length `n`; entries at indices `≥ n` are irrelevant.  The MPI collectives
appearing in `main` are modelled two ways: as an exact state-transition
model of one loop iteration (`simStep` and its stages) and as the per-rank
trace of collective calls each rank executes (`initOps`, `iterOps`).
-/

noncomputable section

namespace NBody

/-- Newton's gravitational constant, `G = 6.67430e-11` in the source. -/
def G : ℝ := 6.67430e-11

/-- Euclidean distance between two 2-d points, as computed in the source:
`distance = np.sqrt(dx**2 + dy**2)` with `dx, dy` the coordinate
differences `b - a`. -/
def distance (a b : ℝ × ℝ) : ℝ :=
  Real.sqrt ((b.1 - a.1) ^ 2 + (b.2 - a.2) ^ 2)

/-- The acceleration contribution of a body at `b` with mass `m` on a body
at `a`, exactly as the inner loop of `calculate_accelerations` computes it:
if `distance > 0` then `force = G * m / distance ** 2` and the components
are `force * dx / distance` and `force * dy / distance`; otherwise the pair
is skipped (contributes zero). -/
def pairContrib (a b : ℝ × ℝ) (m : ℝ) : ℝ × ℝ :=
  if 0 < distance a b then
    (G * m / distance a b ^ 2 * (b.1 - a.1) / distance a b,
     G * m / distance a b ^ 2 * (b.2 - a.2) / distance a b)
  else (0, 0)

/-- Variant of `pairContrib` that returns `none` whenever a division whose
divisor is zero would be executed (the divisors of the two division sites
are `distance ** 2` and `distance`, and both vanish exactly when
`distance = 0`).  Used to state that the kernel never divides by zero. -/
def pairContribChecked (a b : ℝ × ℝ) (m : ℝ) : Option (ℝ × ℝ) :=
  if 0 < distance a b then
    if distance a b = 0 then none
    else some (G * m / distance a b ^ 2 * (b.1 - a.1) / distance a b,
               G * m / distance a b ^ 2 * (b.2 - a.2) / distance a b)
  else some (0, 0)

/-- Length of the strided slice `positions[rank::size]` of an array of
length `n` (numpy slice semantics: `⌈(n - rank) / size⌉`, and `0` when
`rank ≥ n`). -/
def localLen (n rank size : ℕ) : ℕ :=
  (n - rank + size - 1) / size

/-- The set of global indices written back by
`accelerations[rank + i*size] = local_accelerations[i]` for
`i` ranging over the local slice. -/
def ownedSet (n rank size : ℕ) : Finset ℕ :=
  (Finset.range (localLen n rank size)).image fun i => rank + i * size

/-- The inner double loop of `calculate_accelerations`: the acceleration
accumulated for the local body with local index `i` (global index
`rank + i * size`).  The guard `if i != j` of the source compares the
LOCAL index `i` with the GLOBAL index `j`; the embedding reproduces this
faithfully. -/
def localAccel (pos : ℕ → ℝ × ℝ) (mass : ℕ → ℝ) (n rank size i : ℕ) : ℝ × ℝ :=
  ∑ j ∈ Finset.range n,
    if i ≠ j then pairContrib (pos (rank + i * size)) (pos j) (mass j) else 0

/-- The function `calculate_accelerations(positions, masses)` of the
source, for a system of `n` bodies, executed by worker `rank` out of
`size` workers: a size-`n` array that holds `local_accelerations[i]` at
each written-back global index `rank + i * size` and zero elsewhere
(`np.zeros_like(positions)`). -/
def calculate_accelerations (pos : ℕ → ℝ × ℝ) (mass : ℕ → ℝ)
    (n rank size : ℕ) : ℕ → ℝ × ℝ :=
  fun k =>
    if k ∈ ownedSet n rank size then
      localAccel pos mass n rank size ((k - rank) / size)
    else 0

/-- The acceleration of body `k` as the specification's formula states it:
`A[k] = Σ_{j≠k} G·M[j]·(P[j]-P[k]) / |P[j]-P[k]|³`, zero-separation pairs
skipped.  This definition follows the spec's words (§4.2), to be compared
with `calculate_accelerations`, which follows the source. -/
def specAcceleration (pos : ℕ → ℝ × ℝ) (mass : ℕ → ℝ) (n k : ℕ) : ℝ × ℝ :=
  ∑ j ∈ Finset.range n,
    if j ≠ k ∧ 0 < distance (pos k) (pos j) then
      (G * mass j * (pos j - pos k).1 / distance (pos k) (pos j) ^ 3,
       G * mass j * (pos j - pos k).2 / distance (pos k) (pos j) ^ 3)
    else 0

/-- The striped ownership rule of the spec's Partitioner contract:
index `i` belongs to worker `r` out of `p` iff `i mod p = r`. -/
def owns (i r p : ℕ) : Prop := i % p = r

instance : ∀ i r p, Decidable (owns i r p) := fun i r p =>
  Nat.decEq (i % p) r

/-- The element-wise sum `comm.Reduce(..., op=MPI.SUM)` of the partial
acceleration arrays of all `W` workers, where worker `r` evaluates the
kernel on its own replica `posAt r` of the position array. -/
def reducedAccel (posAt : ℕ → ℕ → ℝ × ℝ) (mass : ℕ → ℝ)
    (n W : ℕ) : ℕ → ℝ × ℝ :=
  fun k => ∑ r ∈ Finset.range W, calculate_accelerations (posAt r) mass n r W k

/-- The reduced acceleration array when all workers hold the same position
array (the situation the spec's reduction-equivalence property speaks
about). -/
def reducedAccelUniform (pos : ℕ → ℝ × ℝ) (mass : ℕ → ℝ)
    (n W : ℕ) : ℕ → ℝ × ℝ :=
  reducedAccel (fun _ => pos) mass n W

/-! ### Exact state-transition model of one iteration of the main loop

After the initial `comm.bcast` calls (lines 77–79, executed by every rank)
all ranks hold identical replicas.  During the loop, rank 0 mutates its
replica in place; the `comm.Bcast(positions, root=0)` call sits INSIDE the
`if comm.rank == 0:` branch, so no other rank participates in it and the
other replicas are unchanged.  The state records each rank's replica. -/

/-- Global state of one simulation run with the per-rank position
replicas, the shared mass array, and the coordinator's velocity array. -/
structure SimState where
  n : ℕ
  posAt : ℕ → ℕ → ℝ × ℝ
  mass : ℕ → ℝ
  vel : ℕ → ℝ × ℝ

/-- First reduced acceleration of an iteration (`a₁`), evaluated by each
rank on its own replica. -/
def accel1 (W : ℕ) (s : SimState) : ℕ → ℝ × ℝ :=
  reducedAccel s.posAt s.mass s.n W

/-- Coordinator's velocity after the first half-kick
`velocities += 0.5 * dt * all_accelerations`. -/
def velAfterHalfKick (W : ℕ) (dt : ℝ) (s : SimState) : ℕ → ℝ × ℝ :=
  fun k => s.vel k + ((0.5 : ℝ) * dt) • accel1 W s k

/-- Coordinator's positions after the drift `positions += dt * velocities`. -/
def posAfterDrift (W : ℕ) (dt : ℝ) (s : SimState) : ℕ → ℝ × ℝ :=
  fun k => s.posAt 0 k + dt • velAfterHalfKick W dt s k

/-- The position replica each rank holds when the second acceleration
evaluation runs: rank 0 holds the post-drift array; every other rank still
holds its pre-drift replica, because the `comm.Bcast(positions, root=0)`
call is inside the `if comm.rank == 0:` branch and never reaches them. -/
def posAtSecondEval (W : ℕ) (dt : ℝ) (s : SimState) (r : ℕ) : ℕ → ℝ × ℝ :=
  if r = 0 then posAfterDrift W dt s else s.posAt r

/-- Second reduced acceleration of an iteration (`a₂`). -/
def accel2 (W : ℕ) (dt : ℝ) (s : SimState) : ℕ → ℝ × ℝ :=
  reducedAccel (posAtSecondEval W dt s) s.mass s.n W

/-- One full iteration of the main loop: first evaluation and reduction,
coordinator half-kick and drift, (coordinator-only) broadcast, barrier,
second evaluation and reduction, coordinator second half-kick. -/
def simStep (W : ℕ) (dt : ℝ) (s : SimState) : SimState :=
  { n := s.n
    posAt := posAtSecondEval W dt s
    mass := s.mass
    vel := fun k => velAfterHalfKick W dt s k + ((0.5 : ℝ) * dt) • accel2 W dt s k }

/-! ### Trace model of the collective calls each rank executes -/

/-- The arrays a collective call can carry. -/
inductive Var
  | positions
  | masses
  | velocities
  | accelerations
deriving DecidableEq

/-- A collective MPI operation as it appears in the source. -/
inductive MpiOp
  | reduce (v : Var)
  | bcast (v : Var)
  | barrier
deriving DecidableEq

/-- The collective calls executed by EVERY rank before the loop starts
(lines 77–79: `comm.bcast` of positions, masses and velocities, outside
any rank guard). -/
def initOps : List MpiOp :=
  [MpiOp.bcast Var.positions, MpiOp.bcast Var.masses, MpiOp.bcast Var.velocities]

/-- The collective calls rank `r` executes in one iteration of the main
loop, read off the control flow: `comm.Reduce` (all ranks),
`comm.Bcast(positions)` (only inside `if comm.rank == 0:`), `comm.Barrier`
(all ranks), `comm.Reduce` (all ranks). -/
def iterOps (r : ℕ) : List MpiOp :=
  if r = 0 then
    [MpiOp.reduce Var.accelerations, MpiOp.bcast Var.positions,
     MpiOp.barrier, MpiOp.reduce Var.accelerations]
  else
    [MpiOp.reduce Var.accelerations, MpiOp.barrier,
     MpiOp.reduce Var.accelerations]

/-- The arrays rank `r`'s loop body assigns or mutates in one iteration,
in program order.  Rank 0: the first local evaluation, the zero-filled
receive buffer, the `comm.Reduce` receive, the first velocity half-kick,
the position drift, then the second local evaluation, receive buffer,
`comm.Reduce` receive and velocity half-kick.  Every other rank: the first
local evaluation, the `all_accelerations = None` assignment, and the
second local evaluation (the second receive-buffer assignment is inside
`if comm.rank == 0:` and `comm.Reduce` writes no buffer at non-root
ranks).  The velocity array is written only under the coordinator-only
branches. -/
def iterWrites (r : ℕ) : List Var :=
  if r = 0 then
    [Var.accelerations, Var.accelerations, Var.accelerations,
     Var.velocities, Var.positions,
     Var.accelerations, Var.accelerations, Var.accelerations,
     Var.velocities]
  else
    [Var.accelerations, Var.accelerations, Var.accelerations]

/-! ### Per-rank simulation time -/

/-- The update of the loop variable `t` in one iteration at rank `r`:
`t += dt` is executed only inside the `if comm.rank == 0:` branch. -/
def rankTimeStep (r : ℕ) (dt t : ℚ) : ℚ :=
  if r = 0 then t + dt else t

/-- The value of `t` held by rank `r` after `m` iterations of the main
loop; `t = 0` initially. -/
def rankTime (r : ℕ) (dt : ℚ) : ℕ → ℚ
  | 0 => 0
  | m + 1 => rankTimeStep r dt (rankTime r dt m)

/-! ### Concrete example systems used by the counterexample theorems -/

/-- Two bodies, at `(0,0)` and `(1,0)`. -/
def twoBodyPos : ℕ → ℝ × ℝ := fun k => if k = 0 then (0, 0) else (1, 0)

/-- Unit masses. -/
def twoBodyMass : ℕ → ℝ := fun _ => 1

/-- Three bodies: two coincident at `p`, one at `q`. -/
def pos3 (p q : ℝ × ℝ) : ℕ → ℝ × ℝ :=
  fun k => if k = 0 then p else if k = 1 then p else q

/-- Three masses. -/
def mass3 (m0 m1 m2 : ℝ) : ℕ → ℝ :=
  fun k => if k = 0 then m0 else if k = 1 then m1 else m2

/-- A one-body system at the origin with velocity `(1, 0)`, identical at
every rank (the situation right after the initial broadcasts). -/
def oneBodyState : SimState :=
  { n := 1
    posAt := fun _ _ => (0, 0)
    mass := fun _ => 1
    vel := fun _ => (1, 0) }

/-! ### Helper lemmas -/

theorem distance_self (p : ℝ × ℝ) : distance p p = 0 := by
  simp [distance]

theorem distance_comm (a b : ℝ × ℝ) : distance a b = distance b a := by
  unfold distance
  congr 1
  ring

theorem distance_pos {a b : ℝ × ℝ} (h : a ≠ b) : 0 < distance a b := by
  unfold distance
  apply Real.sqrt_pos.mpr
  have h' : a.1 ≠ b.1 ∨ a.2 ≠ b.2 := by
    by_contra hc
    push_neg at hc
    exact h (Prod.ext hc.1 hc.2)
  rcases h' with h1 | h1
  · exact add_pos_of_pos_of_nonneg
      (pow_two_pos_of_ne_zero (sub_ne_zero_of_ne (Ne.symm h1))) (sq_nonneg _)
  · exact add_pos_of_nonneg_of_pos (sq_nonneg _)
      (pow_two_pos_of_ne_zero (sub_ne_zero_of_ne (Ne.symm h1)))

theorem pairContrib_self (p : ℝ × ℝ) (m : ℝ) : pairContrib p p m = 0 := by
  simp [pairContrib, distance_self]

theorem lt_localLen_iff {n rank size i : ℕ} (hsize : 0 < size) :
    i < localLen n rank size ↔ rank + i * size < n := by
  unfold localLen
  rw [Nat.lt_iff_add_one_le, Nat.le_div_iff_mul_le hsize, add_mul, one_mul]
  have h : i * size = i * size := rfl
  generalize i * size = m at h ⊢
  omega

theorem mem_ownedSet {n rank size k : ℕ} (hsize : 0 < size)
    (hrank : rank < size) :
    k ∈ ownedSet n rank size ↔ k < n ∧ k % size = rank := by
  unfold ownedSet
  rw [Finset.mem_image]
  constructor
  · rintro ⟨i, hi, rfl⟩
    rw [Finset.mem_range] at hi
    refine ⟨(lt_localLen_iff hsize).mp hi, ?_⟩
    rw [Nat.add_mul_mod_self_right]
    exact Nat.mod_eq_of_lt hrank
  · rintro ⟨hk, hmod⟩
    have hk2 : rank + k / size * size = k := by
      rw [← hmod]
      exact Nat.mod_add_div' k size
    refine ⟨k / size, ?_, hk2⟩
    rw [Finset.mem_range, lt_localLen_iff hsize, hk2]
    exact hk

theorem G_ne_zero : G ≠ 0 := by
  norm_num [G]

theorem distance_eval₁ : distance (0 : ℝ × ℝ) (1, 0) = 1 := by
  norm_num [distance]

theorem distance_eval₂ : distance ((1 : ℝ), (0 : ℝ)) (0 : ℝ × ℝ) = 1 := by
  norm_num [distance]

theorem pairContrib_eval₁ : pairContrib ((1 : ℝ), (0 : ℝ)) (0 : ℝ × ℝ) 1 = (-G, 0) := by
  simp only [pairContrib, distance_eval₂]
  norm_num

theorem calc_twoBody_rank1_at1 :
    calculate_accelerations twoBodyPos twoBodyMass 2 1 2 1 = 0 := by
  simp only [calculate_accelerations]
  rw [if_pos (by decide : (1 : ℕ) ∈ ownedSet 2 1 2)]
  norm_num [localAccel, Finset.sum_range_succ, twoBodyPos, twoBodyMass,
    pairContrib_self]

theorem calc_twoBody_rank1_at0 :
    calculate_accelerations twoBodyPos twoBodyMass 2 1 2 0 = 0 := by
  simp only [calculate_accelerations]
  rw [if_neg (by decide : ¬ (0 : ℕ) ∈ ownedSet 2 1 2)]

theorem calc_twoBody_rank0_at1 :
    calculate_accelerations twoBodyPos twoBodyMass 2 0 2 1 = 0 := by
  simp only [calculate_accelerations]
  rw [if_neg (by decide : ¬ (1 : ℕ) ∈ ownedSet 2 0 2)]

theorem calc_twoBody_single_at1 :
    calculate_accelerations twoBodyPos twoBodyMass 2 0 1 1 = (-G, 0) := by
  simp only [calculate_accelerations]
  rw [if_pos (by decide : (1 : ℕ) ∈ ownedSet 2 0 1)]
  norm_num [localAccel, Finset.sum_range_succ, twoBodyPos, twoBodyMass,
    pairContrib_eval₁]

theorem spec_twoBody_at1 :
    specAcceleration twoBodyPos twoBodyMass 2 1 = (-G, 0) := by
  simp only [specAcceleration, Finset.sum_range_succ, Finset.sum_range_zero]
  norm_num [twoBodyPos, twoBodyMass, distance_eval₂]

theorem accel1_oneBody_at0 : accel1 2 oneBodyState 0 = 0 := by
  simp only [accel1, reducedAccel, oneBodyState, Finset.sum_range_succ,
    Finset.sum_range_zero, calculate_accelerations]
  rw [if_pos (by decide : (0 : ℕ) ∈ ownedSet 1 0 2),
      if_neg (by decide : ¬ (0 : ℕ) ∈ ownedSet 1 1 2)]
  norm_num [localAccel, Finset.sum_range_one]

theorem velAfterHalfKick_oneBody_at0 :
    velAfterHalfKick 2 ((1 : ℝ) / 60) oneBodyState 0 = (1, 0) := by
  simp only [velAfterHalfKick]
  rw [accel1_oneBody_at0]
  simp [oneBodyState]

theorem posAfterDrift_oneBody_at0 :
    posAfterDrift 2 ((1 : ℝ) / 60) oneBodyState 0 = (1 / 60, 0) := by
  simp only [posAfterDrift]
  rw [velAfterHalfKick_oneBody_at0]
  simp only [oneBodyState, Prod.smul_mk, smul_eq_mul]
  norm_num

theorem posAtSecondEval_oneBody_rank1_at0 :
    posAtSecondEval 2 ((1 : ℝ) / 60) oneBodyState 1 0 = (0, 0) := by
  simp [posAtSecondEval, oneBodyState]

theorem rankTime_of_ne_zero (r : ℕ) (hr : r ≠ 0) (dt : ℚ) :
    ∀ m, rankTime r dt m = 0
  | 0 => rfl
  | m + 1 => by
      rw [rankTime, rankTimeStep, if_neg hr, rankTime_of_ne_zero r hr dt m]

theorem rankTime_coordinator (dt : ℚ) : ∀ m, rankTime 0 dt m = m * dt
  | 0 => by simp [rankTime]
  | m + 1 => by
      rw [rankTime, rankTimeStep, if_pos rfl, rankTime_coordinator dt m]
      push_cast
      ring

theorem negG_ne_zero : ((-G, (0 : ℝ)) : ℝ × ℝ) ≠ 0 := by
  intro h
  have h1 : -G = 0 := by simpa using congrArg Prod.fst h
  exact G_ne_zero (neg_eq_zero.mp h1)

/-! ### Claim theorems -/

/-- C1: the claim states that for every call to `calculate_accelerations`
with rank `r` and worker count `W`, every owned index `i` receives
`A[i] = Σ_{j≠i} G·M[j]·(P[j]-P[i])/|P[j]-P[i]|³` and non-owned indices are
zero.  The code violates this: its guard `if i != j` compares the LOCAL
slice index `i` with the GLOBAL index `j`, so for `W = 2`, `r = 1` and the
two-body system at `(0,0)` and `(1,0)` with unit masses the owned index 1
gets `A[1] = 0`, while the spec formula yields `(-G, 0) ≠ 0` (body 0's
pull on body 1 is wrongly skipped). -/
theorem calc_deviates_from_spec_formula :
    calculate_accelerations twoBodyPos twoBodyMass 2 1 2 1 = 0 ∧
    calculate_accelerations twoBodyPos twoBodyMass 2 1 2 0 = 0 ∧
    specAcceleration twoBodyPos twoBodyMass 2 1 = (-G, 0) ∧
    ((-G, (0 : ℝ)) : ℝ × ℝ) ≠ 0 :=
  ⟨calc_twoBody_rank1_at1, calc_twoBody_rank1_at0, spec_twoBody_at1, negG_ne_zero⟩

/-- C2: the claim states that the second reduced acceleration evaluation
`a₂` of every iteration is computed at the new (post-drift) positions.
On the coordinator this holds, but because `comm.Bcast(positions, root=0)`
sits inside the `if comm.rank == 0:` branch, every other rank still holds
its pre-drift replica when the second evaluation runs: for `W = 2`, a
one-body system at the origin with velocity `(1,0)` and `dt = 1/60`, rank
1's replica at the second evaluation is `(0,0)` while the post-drift
position is `(1/60, 0)`. -/
theorem second_eval_uses_stale_positions :
    posAtSecondEval 2 ((1 : ℝ) / 60) oneBodyState 0 0 =
      posAfterDrift 2 ((1 : ℝ) / 60) oneBodyState 0 ∧
    posAfterDrift 2 ((1 : ℝ) / 60) oneBodyState 0 = (1 / 60, 0) ∧
    posAtSecondEval 2 ((1 : ℝ) / 60) oneBodyState 1 0 = (0, 0) ∧
    posAtSecondEval 2 ((1 : ℝ) / 60) oneBodyState 1 0 ≠
      posAfterDrift 2 ((1 : ℝ) / 60) oneBodyState 0 := by
  refine ⟨by simp [posAtSecondEval], posAfterDrift_oneBody_at0,
    posAtSecondEval_oneBody_rank1_at0, ?_⟩
  rw [posAtSecondEval_oneBody_rank1_at0, posAfterDrift_oneBody_at0]
  norm_num [Prod.ext_iff]

/-- C3: the claim states that the updated positions are propagated to
every worker by a broadcast in which all workers participate, and that at
every barrier point all workers hold identical position arrays.  The code
violates this: `comm.Bcast(positions, root=0)` is inside the
`if comm.rank == 0:` branch, so rank 1's per-iteration collective trace
contains no broadcast at all, its trace differs from rank 0's, and at the
barrier of the first iteration the replicas already disagree (shown on a
concrete one-body run with `W = 2`, `dt = 1/60`). -/
theorem broadcast_not_collective :
    MpiOp.bcast Var.positions ∈ iterOps 0 ∧
    (∀ v, MpiOp.bcast v ∉ iterOps 1) ∧
    iterOps 1 ≠ iterOps 0 ∧
    posAtSecondEval 2 ((1 : ℝ) / 60) oneBodyState 1 0 ≠
      posAtSecondEval 2 ((1 : ℝ) / 60) oneBodyState 0 0 := by
  refine ⟨by decide, ?_, by decide, ?_⟩
  · intro v
    cases v <;> decide
  · have h0 : posAtSecondEval 2 ((1 : ℝ) / 60) oneBodyState 0 0 =
        posAfterDrift 2 ((1 : ℝ) / 60) oneBodyState 0 := by
      simp [posAtSecondEval]
    rw [h0, posAtSecondEval_oneBody_rank1_at0, posAfterDrift_oneBody_at0]
    norm_num [Prod.ext_iff]

/-- C4 (counterexample): the claim states that the loop terminates after
finitely many steps on every rank.  It is false for rank 1: `t += dt` is
executed only inside the `if comm.rank == 0:` branch, so with `dt = 1/60`
and `t_end = 1` (the source's parameters) rank 1's `t` never exceeds
`t_end` after any number of iterations. -/
theorem worker_loop_never_exits :
    ¬ ∃ m : ℕ, (1 : ℚ) < rankTime 1 (1 / 60) m := by
  rintro ⟨m, hm⟩
  rw [rankTime_of_ne_zero 1 (by norm_num) (1 / 60) m] at hm
  norm_num at hm

/-- C4 (amended): every rank starts its loop with `t = 0`; on the
coordinator (rank 0), for any `dt > 0` and any finite `t_end`, the loop
variable exceeds `t_end` after finitely many iterations, so the
coordinator's loop terminates; on every other rank `t` is never advanced
and remains `0` forever, so the loop never exits there. -/
theorem loop_termination_per_rank (dt tEnd : ℚ) (r : ℕ) (hdt : 0 < dt) :
    rankTime r dt 0 = 0 ∧
    (r = 0 → ∃ m : ℕ, tEnd < rankTime r dt m) ∧
    (r ≠ 0 → ∀ m, rankTime r dt m = 0) := by
  refine ⟨rfl, ?_, fun hr m => rankTime_of_ne_zero r hr dt m⟩
  rintro rfl
  obtain ⟨m, hm⟩ := exists_nat_gt (tEnd / dt)
  refine ⟨m, ?_⟩
  rw [rankTime_coordinator]
  exact (div_lt_iff₀ hdt).mp hm

/-- Witness for the amended C4 theorem at `dt = 1/60`, `t_end = 1`,
rank 0. -/
theorem loop_termination_per_rank_witness :
    0 < (1 / 60 : ℚ) ∧
      (rankTime 0 (1 / 60) 0 = 0 ∧
       ((0 : ℕ) = 0 → ∃ m : ℕ, (1 : ℚ) < rankTime 0 (1 / 60) m) ∧
       ((0 : ℕ) ≠ 0 → ∀ m, rankTime 0 (1 / 60) m = 0)) :=
  ⟨by norm_num, loop_termination_per_rank (1 / 60) 1 0 (by norm_num)⟩

/-- C5: the striped ownership rule `i mod P = rank` partitions `{0..N-1}`
(each index is owned by exactly one of the `P` workers), and the set of
global indices realized by the slice `positions[rank::size]` together with
the write-back to `rank + i*size` is exactly the set of owned indices
below `N`. -/
theorem striped_partition (N P rank k : ℕ) (hP : 1 ≤ P) (hrank : rank < P) :
    (k < N → ∃! r, r < P ∧ owns k r P) ∧
    (k ∈ ownedSet N rank P ↔ k < N ∧ owns k rank P) := by
  constructor
  · intro _
    refine ⟨k % P, ⟨Nat.mod_lt k hP, rfl⟩, ?_⟩
    rintro r ⟨_, hr⟩
    simp only [owns] at hr
    exact hr.symm
  · simpa [owns] using mem_ownedSet hP hrank

/-- Witness for C5 at `N = 5`, `P = 2`, `rank = 1`, `k = 3`. -/
theorem striped_partition_witness :
    1 ≤ 2 ∧ 1 < 2 ∧
      ((3 < 5 → ∃! r, r < 2 ∧ owns 3 r 2) ∧
       (3 ∈ ownedSet 5 1 2 ↔ 3 < 5 ∧ owns 3 1 2)) :=
  ⟨by decide, by decide, striped_partition 5 2 1 3 (by decide) (by decide)⟩

/-- C6: the claim states that the globally reduced acceleration array is
independent of the worker count (identical in exact arithmetic).  The code
violates this: for the two-body system at `(0,0)`, `(1,0)` with unit
masses, the reduced array at index 1 is `(-G, 0)` with one worker but
`(0, 0)` with two workers, because with `W = 2` the guard `if i != j`
wrongly skips body 0's contribution to body 1. -/
theorem reduction_not_worker_count_independent :
    reducedAccelUniform twoBodyPos twoBodyMass 2 1 1 = (-G, 0) ∧
    reducedAccelUniform twoBodyPos twoBodyMass 2 2 1 = 0 ∧
    reducedAccelUniform twoBodyPos twoBodyMass 2 1 1 ≠
      reducedAccelUniform twoBodyPos twoBodyMass 2 2 1 := by
  have h1 : reducedAccelUniform twoBodyPos twoBodyMass 2 1 1 = (-G, 0) := by
    simp only [reducedAccelUniform, reducedAccel, Finset.sum_range_one]
    exact calc_twoBody_single_at1
  have h2 : reducedAccelUniform twoBodyPos twoBodyMass 2 2 1 = 0 := by
    simp only [reducedAccelUniform, reducedAccel, Finset.sum_range_succ,
      Finset.sum_range_zero]
    rw [calc_twoBody_rank0_at1, calc_twoBody_rank1_at1]
    simp
  refine ⟨h1, h2, ?_⟩
  rw [h1, h2]
  exact negG_ne_zero

/-- C7: Newton's third law for the force kernel, exactly in exact
arithmetic: for two bodies at distinct positions `a ≠ b` with masses
`ma`, `mb`, the contributions computed by the kernel satisfy
`ma • a_{a←b} = -(mb • a_{b←a})`. -/
theorem newton_third_law (a b : ℝ × ℝ) (ma mb : ℝ) (hab : a ≠ b) :
    ma • pairContrib a b mb = -(mb • pairContrib b a ma) := by
  have hd : distance b a = distance a b := distance_comm b a
  have hpos : 0 < distance a b := distance_pos hab
  unfold pairContrib
  rw [hd, if_pos hpos, if_pos hpos]
  simp only [Prod.smul_mk, smul_eq_mul, Prod.neg_mk, Prod.mk.injEq]
  constructor <;> ring

/-- Witness for C7 at `a = (0,0)`, `b = (1,0)`, `ma = 2`, `mb = 3`. -/
theorem newton_third_law_witness :
    ((0, 0) : ℝ × ℝ) ≠ (1, 0) ∧
      (2 : ℝ) • pairContrib ((0, 0) : ℝ × ℝ) (1, 0) 3 =
        -((3 : ℝ) • pairContrib ((1, 0) : ℝ × ℝ) (0, 0) 2) :=
  ⟨by norm_num [Prod.ext_iff],
   newton_third_law (0, 0) (1, 0) 2 3 (by norm_num [Prod.ext_iff])⟩

/-- C9: a degenerate pair (two distinct bodies at the identical position
`p`) contributes exactly zero mutual acceleration — the kernel's
`distance > 0` guard skips the pair, so no division is executed for it —
while both bodies still contribute normally to and from a third body at a
distinct position `q`: in the three-body system `[p, p, q]` evaluated by a
single worker, body 0's acceleration is exactly the contribution of body
2, and body 2's acceleration is the sum of the normal contributions of
bodies 0 and 1. -/
theorem degenerate_pair_skip (p q : ℝ × ℝ) (m0 m1 m2 : ℝ) (hpq : p ≠ q) :
    pairContrib p p m1 = 0 ∧
    0 < distance p q ∧
    calculate_accelerations (pos3 p q) (mass3 m0 m1 m2) 3 0 1 0 =
      pairContrib p q m2 ∧
    calculate_accelerations (pos3 p q) (mass3 m0 m1 m2) 3 0 1 2 =
      pairContrib q p m0 + pairContrib q p m1 := by
  refine ⟨pairContrib_self p m1, distance_pos hpq, ?_, ?_⟩
  · simp only [calculate_accelerations]
    rw [if_pos (by decide : (0 : ℕ) ∈ ownedSet 3 0 1)]
    norm_num [localAccel, Finset.sum_range_succ, pos3, mass3, pairContrib_self]
  · simp only [calculate_accelerations]
    rw [if_pos (by decide : (2 : ℕ) ∈ ownedSet 3 0 1)]
    norm_num [localAccel, Finset.sum_range_succ, pos3, mass3]

/-- Witness for C9 at `p = (0,0)`, `q = (1,0)`, unit masses. -/
theorem degenerate_pair_skip_witness :
    ((0, 0) : ℝ × ℝ) ≠ (1, 0) ∧
      (pairContrib ((0, 0) : ℝ × ℝ) ((0, 0) : ℝ × ℝ) 1 = 0 ∧
       0 < distance ((0, 0) : ℝ × ℝ) (1, 0) ∧
       calculate_accelerations (pos3 (0, 0) (1, 0)) (mass3 1 1 1) 3 0 1 0 =
         pairContrib ((0, 0) : ℝ × ℝ) (1, 0) 1 ∧
       calculate_accelerations (pos3 (0, 0) (1, 0)) (mass3 1 1 1) 3 0 1 2 =
         pairContrib ((1, 0) : ℝ × ℝ) (0, 0) 1 +
           pairContrib ((1, 0) : ℝ × ℝ) (0, 0) 1) :=
  ⟨by norm_num [Prod.ext_iff],
   degenerate_pair_skip (0, 0) (1, 0) 1 1 1 (by norm_num [Prod.ext_iff])⟩

/-- C10: the force kernel is total and never divides by zero: the checked
variant of the kernel, which returns `none` whenever a division with a
zero divisor would be executed, always returns `some` of the kernel's
value (every division is guarded by `distance > 0`); and the loop pair
formed by a locally owned body with its own global index
`rank + i * size` has zero separation, so no body ever exerts force on
itself. -/
theorem kernel_division_safe (a b p : ℝ × ℝ) (m mj : ℝ) (pos : ℕ → ℝ × ℝ)
    (mass : ℕ → ℝ) (rank size i : ℕ) :
    pairContribChecked a b mj = some (pairContrib a b mj) ∧
    pairContrib p p m = 0 ∧
    pairContrib (pos (rank + i * size)) (pos (rank + i * size))
      (mass (rank + i * size)) = 0 := by
  refine ⟨?_, pairContrib_self p m, pairContrib_self _ _⟩
  unfold pairContribChecked pairContrib
  by_cases h : 0 < distance a b
  · rw [if_pos h, if_pos h, if_neg (ne_of_gt h)]
  · rw [if_neg h, if_neg h]

/-- C8 (counterexample): the claim states that no operation transmits the
velocity array to any non-coordinator worker; but the initialization code
(`velocities = comm.bcast(velocities, root=0)`, executed by every rank)
broadcasts the velocity array to all workers. -/
theorem velocities_broadcast_at_init :
    MpiOp.bcast Var.velocities ∈ initOps := by
  decide

/-- C8 (amended): the velocity array is transmitted exactly once, by the
initial broadcast in which every rank participates; within the simulation
loop no rank's collective trace ever carries the velocity array, the
coordinator's loop body does write the velocity array (the two
half-kicks), and no non-coordinator rank's loop body ever writes it —
after initialization velocities are mutated only under the
coordinator-only branches. -/
theorem velocities_shared_only_at_init :
    MpiOp.bcast Var.velocities ∈ initOps ∧
    (∀ r, MpiOp.bcast Var.velocities ∉ iterOps r ∧
          MpiOp.reduce Var.velocities ∉ iterOps r) ∧
    Var.velocities ∈ iterWrites 0 ∧
    (∀ r, r ≠ 0 → Var.velocities ∉ iterWrites r) := by
  refine ⟨by decide, fun r => ?_, by decide, fun r hr => ?_⟩
  · by_cases h : r = 0
    · subst h
      exact ⟨by decide, by decide⟩
    · simp only [iterOps, if_neg h]
      exact ⟨by decide, by decide⟩
  · simp only [iterWrites, if_neg hr]
    decide

end NBody
